import Mathlib

/-!
Shallow embedding of the scoring pipeline in `src/scoring.py` of the
spoken-introduction evaluation tool, together with theorems settling the
spec claims about it.  Machine floats of the source are modelled as exact
rationals; pandas cells are modelled by an explicit `Cell` type whose `na`
constructor stands for `NaN` / missing values.
-/

set_option maxHeartbeats 1000000

/-- A pandas cell as seen by `scoring.py`: missing (`NaN`), a string, or a
finite number.  Numbers are modelled as rationals. -/
inductive Cell where
  | na : Cell
  | str (s : String) : Cell
  | num (q : Rat) : Cell
deriving DecidableEq

/-- Python whitespace (the ASCII set shared by `str.strip()` and the regex
whitespace class used in `preprocess_text`). -/
def pyIsSpace (c : Char) : Bool :=
  c = ' ' || c = '\t' || c = '\n' || c = '\r' || c = '\x0b' || c = '\x0c'

/-- Model of `str.strip()` on a character list: drop leading and trailing whitespace. -/
def pyStrip (l : List Char) : List Char :=
  ((l.dropWhile pyIsSpace).reverse.dropWhile pyIsSpace).reverse

/-- Model of `str.strip()` on strings. -/
def pyStripStr (s : String) : String := String.mk (pyStrip s.data)

/-- Model of `str.lower()`, ASCII-faithful. -/
def strLower (s : String) : String := String.mk (s.data.map Char.toLower)

/-- Python `str(cell)`: `str(nan)` is the four-character string `"nan"`;
the decimal rendering of a number is abstracted by `toString` (no claim
depends on the exact decimal form of a numeric cell). -/
def pyStr : Cell → String
  | Cell.na => "nan"
  | Cell.str s => s
  | Cell.num q => toString q

/-- Model of `text.replace("\n", " ")` character-wise. -/
def nlToSp (c : Char) : Char := if c = '\n' then ' ' else c

/-- Model of `re.sub(r"\s+", " ", text)`: every maximal run of whitespace becomes a
single space. -/
def collapse : List Char → List Char
  | [] => []
  | [c] => if pyIsSpace c then [' '] else [c]
  | c :: d :: rest =>
    if pyIsSpace c && pyIsSpace d then collapse (d :: rest)
    else (if pyIsSpace c then ' ' else c) :: collapse (d :: rest)

/-- Model of `preprocess_text` from `scoring.py`: strip, replace newlines by spaces,
collapse whitespace runs. -/
def preprocess_text (s : String) : String :=
  String.mk (collapse ((pyStrip s.data).map nlToSp))

/-- Model of `str.split()` with no separator: maximal whitespace-free runs. -/
def pyWordsAux : List Char → List Char → List (List Char)
  | [], acc => if acc.isEmpty then [] else [acc.reverse]
  | c :: rest, acc =>
    if pyIsSpace c then
      if acc.isEmpty then pyWordsAux rest [] else acc.reverse :: pyWordsAux rest []
    else pyWordsAux rest (c :: acc)

/-- Model of `len(transcript.split())`. -/
def pyWordCount (s : String) : Nat := (pyWordsAux s.data []).length

/-- Equality test of a list against a prefix of another list. -/
def listPrefixEq : List Char → List Char → Bool
  | [], _ => true
  | _ :: _, [] => false
  | a :: as, b :: bs => a = b && listPrefixEq as bs

/-- Contiguous-substring test on character lists. -/
def listContainsSub (needle : List Char) : List Char → Bool
  | [] => needle.isEmpty
  | b :: bs => listPrefixEq needle (b :: bs) || listContainsSub needle bs

/-- Python `needle in hay` for strings: contiguous substring containment. -/
def strContains (hay needle : String) : Bool := listContainsSub needle.data hay.data

/-- Result of `compute_keyword_score`. -/
structure KwResult where
  score : Rat
  found : List String
  missing : List String
deriving DecidableEq

/-- Model of `str.split(",")` on a character list: split at every comma, keeping empty
pieces (Python semantics, in particular the empty string yields one piece). -/
def splitComma : List Char → List (List Char)
  | [] => [[]]
  | c :: rest =>
    if c = ',' then [] :: splitComma rest
    else
      match splitComma rest with
      | [] => [[c]]
      | w :: ws => (c :: w) :: ws

/-- The keyword parse in `compute_keyword_score`: `str(keyword_str)` split on
commas, entries kept when they strip to something non-empty, then stripped and
lower-cased. -/
def parseKeywords (c : Cell) : List String :=
  (((splitComma (pyStr c).data).map String.mk).filter
      (fun k => decide (pyStripStr k ≠ ""))).map
    (fun k => strLower (pyStripStr k))

/-- The found/missing accumulation loop of `compute_keyword_score`. -/
def kwPartition (tl : String) : List String → List String × List String
  | [] => ([], [])
  | kw :: rest =>
    let fm := kwPartition tl rest
    if (kw != "") && strContains tl kw then (kw :: fm.1, fm.2) else (fm.1, kw :: fm.2)

/-- Model of `compute_keyword_score` from `scoring.py`. -/
def compute_keyword_score (transcript : String) (keyword_str : Cell) : KwResult :=
  let tl := strLower transcript
  let kws := parseKeywords keyword_str
  let fm := kwPartition tl kws
  ⟨if kws.length = 0 then 1 else (fm.1.length : Rat) / (kws.length : Rat), fm.1, fm.2⟩

/-- The too-short suggestion string; `int(diff)` agrees with `Rat.floor` on the
positive deficits that reach it. -/
def tooShortMsg (d : Rat) : String :=
  "Too short by about " ++ toString d.floor ++ " words. Try adding a bit more detail."

/-- The too-long suggestion string. -/
def tooLongMsg (d : Rat) : String :=
  "Too long by about " ++ toString d.floor ++ " words. Try being a bit more concise."

/-- Result of `compute_length_penalty`. -/
structure LengthResult where
  penalty : Rat
  suggestion : String
deriving DecidableEq

/-- Model of `np.isfinite(min_words) and word_count < min_words`; a `none` bound is the
non-finite (`NaN`) case. -/
def belowMin (wc : Nat) : Option Rat → Bool
  | some m => decide ((wc : Rat) < m)
  | none => false

/-- Model of `np.isfinite(max_words) and word_count > max_words`. -/
def aboveMax (wc : Nat) : Option Rat → Bool
  | some mx => decide (mx < (wc : Rat))
  | none => false

/-- Model of `compute_length_penalty` from `scoring.py`; `none` bounds are the
non-finite (absent) ones. -/
def compute_length_penalty (wc : Nat) (minW maxW : Option Rat) : LengthResult :=
  if minW = none ∧ maxW = none then ⟨1, ""⟩
  else if belowMin wc minW then
    ⟨max (2/5) (1 - (minW.getD 0 - (wc : Rat)) / max (minW.getD 0) 1),
      tooShortMsg (minW.getD 0 - (wc : Rat))⟩
  else if aboveMax wc maxW then
    ⟨max (2/5) (1 - ((wc : Rat) - maxW.getD 0) / max (maxW.getD 0) 1),
      tooLongMsg ((wc : Rat) - maxW.getD 0)⟩
  else ⟨1, ""⟩

/-- The embedding capability of the spec (the sentence-transformers model plus
cosine similarity, an external collaborator): given two strings it returns a
similarity value, by contract in the interval from -1 to 1. -/
structure Capability where
  sim : String → String → Rat

/-- Model of `compute_semantic_score` from `scoring.py`: neutral 1/2 when the model
failed to load, else the capability's similarity mapped into the unit
interval. -/
def compute_semantic_score (model : Option Capability) (transcript : String)
    (desc : Cell) : Rat :=
  match model with
  | none => 1/2
  | some m => (m.sim transcript (pyStr desc) + 1) / 2

/-- A rubric row: pandas Series as an association list from column name to
cell, in column order. -/
abbrev Row := List (String × Cell)

/-- Model of `col in row` followed by `row[col]`. -/
def rowGet? (row : Row) (col : String) : Option Cell :=
  (row.find? (fun p => p.1 == col)).map Prod.snd

/-- Model of `_get_first_existing` from `scoring.py`: the value of the first candidate
column present in the row, `NaN` when none is. -/
def _get_first_existing (row : Row) : List String → Cell
  | [] => Cell.na
  | c :: rest =>
    match rowGet? row c with
    | some v => v
    | none => _get_first_existing row rest

/-- The synonym scan of `_get_criterion_name`: first name-synonym column that
is present with a non-missing value, stripped. -/
def nameFromSyns (row : Row) : List String → Option String
  | [] => none
  | c :: rest =>
    match rowGet? row c with
    | some v => if v = Cell.na then nameFromSyns row rest else some (pyStripStr (pyStr v))
    | none => nameFromSyns row rest

/-- The fallback scan of `_get_criterion_name`: first non-missing cell of the
row, stripped. -/
def nameFromCells : Row → Option String
  | [] => none
  | p :: rest => if p.2 = Cell.na then nameFromCells rest else some (pyStripStr (pyStr p.2))

/-- Model of `_get_criterion_name` from `scoring.py`. -/
def _get_criterion_name (row : Row) : String :=
  match nameFromSyns row ["Criterion", "Criteria", "Parameter", "Aspect"] with
  | some n => n
  | none =>
    match nameFromCells row with
    | some n => n
    | none => "Unnamed Criterion"

/-- Decimal digit test. -/
def isDig (c : Char) : Bool := '0' ≤ c && c ≤ '9'

/-- Value of a digit string. -/
def natOfDigits (l : List Char) : Nat := l.foldl (fun a c => a * 10 + (c.toNat - 48)) 0

/-- Python `float()` restricted to plain (optionally signed) decimal literals;
`none` is a `ValueError`.  Exponent and non-finite literal forms are not
modelled — no claim depends on them. -/
def pyParseFloat (s : String) : Option Rat :=
  let l := pyStrip s.data
  let sl : Rat × List Char :=
    match l with
    | '-' :: r => (-1, r)
    | '+' :: r => (1, r)
    | _ => (1, l)
  let ip := sl.2.takeWhile isDig
  let rest := sl.2.dropWhile isDig
  match rest with
  | [] => if ip.isEmpty then none else some (sl.1 * (natOfDigits ip : Rat))
  | '.' :: fr =>
    if fr.all isDig && !(ip.isEmpty && fr.isEmpty) then
      some (sl.1 * ((natOfDigits ip : Rat) + (natOfDigits fr : Rat) / (10 : Rat) ^ fr.length))
    else none
  | _ => none

/-- The weight resolution of `score_transcript`: `float(weight_raw)` when the
resolved cell is non-missing, defaulting to 1.0 on absence or conversion
failure (the `try`/`except`). -/
def resolveWeight (row : Row) : Rat :=
  match _get_first_existing row ["Weight", "Weights", "MaxScore"] with
  | Cell.na => 1
  | Cell.num q => q
  | Cell.str s => (pyParseFloat s).getD 1

/-- The bound resolution of `score_transcript`:
`float(cell) if pd.notna(cell) else np.nan`, not guarded by `try`.
`none` = the `float()` call raises (the exception propagates);
`some none` = `NaN` (unbounded); `some (some q)` = finite bound. -/
def resolveBound (row : Row) (cands : List String) : Option (Option Rat) :=
  match _get_first_existing row cands with
  | Cell.na => some none
  | Cell.num q => some (some q)
  | Cell.str s => (pyParseFloat s).map some

/-- Model of `round(x, n)` to `n` decimals.  Exact midpoints round half-up here while
Python rounds half-to-even; no claim distinguishes the two. -/
def pyRoundTo (n : Nat) (x : Rat) : Rat :=
  ((x * (10 : Rat) ^ n + 1/2).floor : Rat) / (10 : Rat) ^ n

/-- One entry of the `per_criterion` list built by `score_transcript`. -/
structure CriterionResult where
  criterion : String
  weight : Rat
  keyword_score : Rat
  semantic_score : Rat
  length_penalty : Rat
  final_score_0_1 : Rat
  keywords_found : List String
  keywords_missing : List String
  length_feedback : String
deriving DecidableEq

/-- The dictionary returned by `score_transcript`. -/
structure ScoreResult where
  overall_score : Rat
  word_count : Nat
  per_criterion : List CriterionResult
deriving DecidableEq

/-- One iteration of the per-row loop of `score_transcript`: the unrounded
final score, the resolved weight, and the appended per-criterion entry. -/
structure RowScore where
  fin : Rat
  weight : Rat
  entry : CriterionResult
deriving DecidableEq

/-- The body of the rubric loop in `score_transcript`; `none` when the bound
conversion raises. -/
def scoreRow (model : Option Capability) (t : String) (wc : Nat) (row : Row) :
    Option RowScore :=
  match resolveBound row ["MinWords", "Min Words"],
        resolveBound row ["MaxWords", "Max Words"] with
  | some minW, some maxW =>
    let name := _get_criterion_name row
    let description :=
      _get_first_existing row ["Description", "Criteria Description", "Detail", "Details"]
    let keywords :=
      _get_first_existing row ["Keywords", "Keyword", "Key words", "KeyWords"]
    let weight := resolveWeight row
    let kw := compute_keyword_score t keywords
    let semantic := compute_semantic_score model t description
    let li := compute_length_penalty wc minW maxW
    let base := (1/2 : Rat) * kw.score + (1/2 : Rat) * semantic
    let fin := base * li.penalty
    some ⟨fin, weight,
      ⟨name, weight, pyRoundTo 3 kw.score, pyRoundTo 3 semantic,
       pyRoundTo 3 li.penalty, pyRoundTo 3 fin, kw.found, kw.missing, li.suggestion⟩⟩
  | _, _ => none

/-- The rubric loop with exception propagation: a raising row aborts the whole
call. -/
def optMap {α β : Type} (f : α → Option β) : List α → Option (List β)
  | [] => some []
  | a :: l =>
    match f a, optMap f l with
    | some b, some bl => some (b :: bl)
    | _, _ => none

/-- Model of `score_transcript` from `scoring.py`. -/
def score_transcript (model : Option Capability) (transcript : String)
    (rubric : List Row) : Option ScoreResult :=
  let t := preprocess_text transcript
  let wc := pyWordCount t
  match optMap (scoreRow model t wc) rubric with
  | none => none
  | some rows =>
    let weighted_sum := (rows.map (fun x => x.fin * x.weight)).sum
    let total_weight := (rows.map (fun x => x.weight)).sum
    let overall := if total_weight = 0 then (0 : Rat) else weighted_sum / total_weight
    some ⟨pyRoundTo 2 (overall * 100), wc, rows.map (fun x => x.entry)⟩

/-- The spec's field-resolution policy, stated for refinement comparison with
`_get_first_existing`: scan the synonym list in priority order and take the
first column that is present AND holds a non-missing value. -/
def specFieldResolution (row : Row) : List String → Cell
  | [] => Cell.na
  | c :: rest =>
    match rowGet? row c with
    | some v => if v = Cell.na then specFieldResolution row rest else v
    | none => specFieldResolution row rest

/-- What `collapse` emits for the first character of a run. -/
def blankify (c : Char) : Char := if pyIsSpace c then ' ' else c

/-- All whitespace characters of the list are plain spaces. -/
def AllBlank (l : List Char) : Prop := ∀ c ∈ l, pyIsSpace c = true → c = ' '

/-- No two adjacent whitespace characters. -/
def NoAdjSpace (l : List Char) : Prop :=
  List.Chain' (fun a b => ¬(pyIsSpace a = true ∧ pyIsSpace b = true)) l

/-- Range contract for the capability, when present. -/
def capInRange (model : Option Capability) : Prop :=
  ∀ cap, model = some cap → ∀ a b, -1 ≤ cap.sim a b ∧ cap.sim a b ≤ 1

/-! ## Helper lemmas about the length penalty -/

lemma rat_floor_eq (x : Rat) (z : Int) (h1 : (z : Rat) ≤ x) (h2 : x < (z : Rat) + 1) :
    x.floor = z := by
  have hx : (⌊x⌋ : Int) = z := by
    rw [Int.floor_eq_iff]
    exact ⟨h1, h2⟩
  exact hx

lemma max_denom_pos (m : Rat) : (0 : Rat) < max m 1 :=
  lt_of_lt_of_le one_pos (le_max_right m 1)

lemma penalty_branch_lower (d m : Rat) : (2/5 : Rat) ≤ max (2/5) (1 - d / max m 1) :=
  le_max_left _ _

lemma penalty_branch_le_one (d m : Rat) (hd : 0 ≤ d) :
    max (2/5) (1 - d / max m 1) ≤ 1 := by
  apply max_le (by norm_num)
  have := div_nonneg hd (max_denom_pos m).le
  linarith

lemma penalty_branch_lt_one (d m : Rat) (hd : 0 < d) :
    max (2/5) (1 - d / max m 1) < 1 := by
  apply max_lt (by norm_num)
  have := div_pos hd (max_denom_pos m)
  linarith

lemma tooShortMsg_ne_empty (d : Rat) : tooShortMsg d ≠ "" := by
  intro h
  have hd := congrArg String.data h
  simp only [tooShortMsg] at hd
  rw [show ("Too short by about " ++ toString d.floor ++
        " words. Try adding a bit more detail." : String) =
      String.mk ("Too short by about ".data ++ (toString d.floor).data ++
        " words. Try adding a bit more detail.".data) from rfl] at hd
  simp at hd

lemma tooLongMsg_ne_empty (d : Rat) : tooLongMsg d ≠ "" := by
  intro h
  have hd := congrArg String.data h
  simp only [tooLongMsg] at hd
  rw [show ("Too long by about " ++ toString d.floor ++
        " words. Try being a bit more concise." : String) =
      String.mk ("Too long by about ".data ++ (toString d.floor).data ++
        " words. Try being a bit more concise.".data) from rfl] at hd
  simp at hd

lemma belowMin_eq_false_iff (wc : Nat) (minW : Option Rat) :
    belowMin wc minW = false ↔ ∀ m, minW = some m → m ≤ (wc : Rat) := by
  cases minW with
  | none => simp [belowMin]
  | some m => simp [belowMin]

lemma aboveMax_eq_false_iff (wc : Nat) (maxW : Option Rat) :
    aboveMax wc maxW = false ↔ ∀ mx, maxW = some mx → (wc : Rat) ≤ mx := by
  cases maxW with
  | none => simp [aboveMax]
  | some mx => simp [aboveMax]

/-- Claim C4: For every word count and optional min/max bounds, the length
penalty lies between 2/5 and 1; it is exactly 1 whenever both bounds are
absent or the word count lies within the bounds; when under the minimum it is
`max (2/5) (1 - (min - wc) / max min 1)`, and when over the maximum (the
under-minimum branch not firing) it is `max (2/5) (1 - (wc - max) / max max 1)`. -/
theorem length_penalty_spec (wc : Nat) (minW maxW : Option Rat) :
    ((2/5 : Rat) ≤ (compute_length_penalty wc minW maxW).penalty ∧
      (compute_length_penalty wc minW maxW).penalty ≤ 1) ∧
    (((minW = none ∧ maxW = none) ∨
        ((∀ m, minW = some m → m ≤ (wc : Rat)) ∧
         (∀ mx, maxW = some mx → (wc : Rat) ≤ mx))) →
      (compute_length_penalty wc minW maxW).penalty = 1) ∧
    (∀ m, minW = some m → (wc : Rat) < m →
      (compute_length_penalty wc minW maxW).penalty =
        max (2/5) (1 - (m - (wc : Rat)) / max m 1)) ∧
    (∀ mx, maxW = some mx → mx < (wc : Rat) → belowMin wc minW = false →
      (compute_length_penalty wc minW maxW).penalty =
        max (2/5) (1 - ((wc : Rat) - mx) / max mx 1)) := by
  refine ⟨?_, ?_, ?_, ?_⟩
  · unfold compute_length_penalty
    split_ifs with h1 h2 h3
    · exact ⟨by norm_num, le_refl 1⟩
    · cases minW with
      | none => simp [belowMin] at h2
      | some m =>
        simp only [belowMin, decide_eq_true_eq] at h2
        simp only [Option.getD_some]
        exact ⟨penalty_branch_lower _ _, penalty_branch_le_one _ _ (by linarith)⟩
    · cases maxW with
      | none => simp [aboveMax] at h3
      | some mx =>
        simp only [aboveMax, decide_eq_true_eq] at h3
        simp only [Option.getD_some]
        exact ⟨penalty_branch_lower _ _, penalty_branch_le_one _ _ (by linarith)⟩
    · exact ⟨by norm_num, le_refl 1⟩
  · intro h
    unfold compute_length_penalty
    split_ifs with h1 h2 h3
    · rfl
    · exfalso
      rcases h with h | ⟨hmin, _⟩
      · exact h1 h
      · cases minW with
        | none => simp [belowMin] at h2
        | some m =>
          simp only [belowMin, decide_eq_true_eq] at h2
          exact absurd (hmin m rfl) (not_le.mpr h2)
    · exfalso
      rcases h with h | ⟨_, hmax⟩
      · exact h1 h
      · cases maxW with
        | none => simp [aboveMax] at h3
        | some mx =>
          simp only [aboveMax, decide_eq_true_eq] at h3
          exact absurd (hmax mx rfl) (not_le.mpr h3)
    · rfl
  · intro m hm hlt
    subst hm
    unfold compute_length_penalty
    have hb : belowMin wc (some m) = true := by
      simp [belowMin, hlt]
    rw [if_neg (by simp), if_pos hb]
    simp
  · intro mx hmx hgt hnb
    subst hmx
    unfold compute_length_penalty
    have ha : aboveMax wc (some mx) = true := by
      simp [aboveMax, hgt]
    rw [if_neg (by simp), if_neg (by simp [hnb]), if_pos ha]
    simp

/-- Witness for C4: word count 3 against minimum bound 5 yields penalty 3/5,
and with no bounds the penalty is 1. -/
theorem length_penalty_spec_witness :
    (compute_length_penalty 3 (some 5) none).penalty =
      max (2/5) (1 - ((5 : Rat) - (3 : Nat)) / max 5 1) ∧
    (compute_length_penalty 7 none none).penalty = 1 := by
  constructor
  · exact (length_penalty_spec 3 (some 5) none).2.2.1 5 rfl (by norm_num)
  · exact (length_penalty_spec 7 none none).2.1 (Or.inl ⟨rfl, rfl⟩)

/-- Claim C6: When the word count is simultaneously under the minimum and over
the maximum (possible when the maximum is below the minimum), the
under-minimum branch wins: penalty and feedback come from the deficit. -/
theorem length_penalty_min_priority (wc : Nat) (m mx : Rat)
    (hmin : (wc : Rat) < m) (_hmax : mx < (wc : Rat)) :
    compute_length_penalty wc (some m) (some mx) =
      ⟨max (2/5) (1 - (m - (wc : Rat)) / max m 1), tooShortMsg (m - (wc : Rat))⟩ := by
  unfold compute_length_penalty
  have hb : belowMin wc (some m) = true := by simp [belowMin, hmin]
  rw [if_neg (by simp), if_pos hb]
  simp

/-- Witness for C6: ten words against minimum 20 and maximum 5 takes the
deficit branch, giving penalty 1/2 and the too-short message. -/
theorem length_penalty_min_priority_witness :
    compute_length_penalty 10 (some 20) (some 5) =
      ⟨1/2, "Too short by about 10 words. Try adding a bit more detail."⟩ := by
  rw [length_penalty_min_priority 10 20 5 (by norm_num) (by norm_num),
    show (20 : Rat) - ((10 : Nat) : Rat) = 10 by norm_num]
  congr 1
  rw [max_eq_left (by norm_num : (1 : Rat) ≤ 20),
    show (1 : Rat) - 10 / 20 = 1/2 by norm_num]
  exact max_eq_right (by norm_num)

/-- Claim C10: The length feedback message is non-empty exactly when the
returned penalty is strictly below 1. -/
theorem length_feedback_iff_penalty_lt_one (wc : Nat) (minW maxW : Option Rat) :
    (compute_length_penalty wc minW maxW).suggestion ≠ "" ↔
      (compute_length_penalty wc minW maxW).penalty < 1 := by
  unfold compute_length_penalty
  split_ifs with h1 h2 h3
  · simp
  · cases minW with
    | none => simp [belowMin] at h2
    | some m =>
      simp only [belowMin, decide_eq_true_eq] at h2
      simp only [Option.getD_some]
      constructor
      · intro _
        exact penalty_branch_lt_one _ _ (by linarith)
      · intro _
        exact tooShortMsg_ne_empty _
  · cases maxW with
    | none => simp [aboveMax] at h3
    | some mx =>
      simp only [aboveMax, decide_eq_true_eq] at h3
      simp only [Option.getD_some]
      constructor
      · intro _
        exact penalty_branch_lt_one _ _ (by linarith)
      · intro _
        exact tooLongMsg_ne_empty _
  · simp

/-- Witness for C10: under the minimum the message is non-empty and the
penalty drops below 1; with no bounds the message is empty and the penalty
is 1. -/
theorem length_feedback_iff_witness :
    (compute_length_penalty 3 (some 5) none).penalty < 1 ∧
    ¬ (compute_length_penalty 7 none none).penalty < 1 := by
  constructor
  · exact (length_feedback_iff_penalty_lt_one 3 (some 5) none).mp (by decide)
  · intro h
    exact absurd ((length_feedback_iff_penalty_lt_one 7 none none).mpr h) (by decide)

/-! ## Helper lemmas about keyword scoring -/

lemma kwPartition_eq_filters (tl : String) (l : List String) :
    kwPartition tl l =
      (l.filter (fun k => (k != "") && strContains tl k),
       l.filter (fun k => !((k != "") && strContains tl k))) := by
  induction l with
  | nil => rfl
  | cons kw rest ih =>
    simp only [kwPartition, ih, List.filter_cons]
    cases h : ((kw != "") && strContains tl kw) <;> simp [h]

lemma strLower_ne_empty {s : String} (h : s ≠ "") : strLower s ≠ "" := by
  intro he
  apply h
  cases s with
  | mk data =>
    simp only [strLower] at he
    have : (String.mk (data.map Char.toLower)).data = ("" : String).data :=
      congrArg String.data he
    simp at this
    simp [this]

lemma parseKeywords_ne_empty (c : Cell) : ∀ k ∈ parseKeywords c, k ≠ "" := by
  intro k hk
  simp only [parseKeywords, List.mem_map, List.mem_filter] at hk
  obtain ⟨x, ⟨_, hx⟩, rfl⟩ := hk
  exact strLower_ne_empty (by simpa using hx)

/-- Claim C5: For a non-empty parsed keyword list the keyword score is the
number of keywords found as case-insensitive substrings of the transcript
divided by the number of keywords, hence in the unit interval; for an empty
keyword list it is 1; and `found`/`missing` are the order- and
duplicate-preserving partition of the parsed keyword list by substring
containment. -/
theorem keyword_score_spec (t : String) (ks : Cell) :
    (compute_keyword_score t ks).found =
        (parseKeywords ks).filter (fun k => strContains (strLower t) k) ∧
    (compute_keyword_score t ks).missing =
        (parseKeywords ks).filter (fun k => !(strContains (strLower t) k)) ∧
    (parseKeywords ks ≠ [] →
      (compute_keyword_score t ks).score =
        (((compute_keyword_score t ks).found.length : Rat) /
          ((parseKeywords ks).length : Rat))) ∧
    (parseKeywords ks = [] → (compute_keyword_score t ks).score = 1) ∧
    0 ≤ (compute_keyword_score t ks).score ∧
    (compute_keyword_score t ks).score ≤ 1 := by
  have hne := parseKeywords_ne_empty ks
  have hpart := kwPartition_eq_filters (strLower t) (parseKeywords ks)
  have hfound : (kwPartition (strLower t) (parseKeywords ks)).1 =
      (parseKeywords ks).filter (fun k => strContains (strLower t) k) := by
    rw [hpart]
    exact List.filter_congr (fun x hx => by simp [bne_iff_ne, hne x hx])
  have hmiss : (kwPartition (strLower t) (parseKeywords ks)).2 =
      (parseKeywords ks).filter (fun k => !(strContains (strLower t) k)) := by
    rw [hpart]
    exact List.filter_congr (fun x hx => by simp [bne_iff_ne, hne x hx])
  have hck : compute_keyword_score t ks =
      ⟨if (parseKeywords ks).length = 0 then 1
        else (((kwPartition (strLower t) (parseKeywords ks)).1.length : Rat) /
          ((parseKeywords ks).length : Rat)),
       (kwPartition (strLower t) (parseKeywords ks)).1,
       (kwPartition (strLower t) (parseKeywords ks)).2⟩ := rfl
  rw [hck]
  refine ⟨hfound, hmiss, ?_, ?_, ?_, ?_⟩
  · intro h
    have hlen : (parseKeywords ks).length ≠ 0 :=
      fun h0 => h (List.length_eq_zero.mp h0)
    simp only [if_neg hlen]
  · intro h
    simp [h]
  · by_cases h0 : (parseKeywords ks).length = 0
    · simp [h0]
    · simp only [if_neg h0]
      exact div_nonneg (Nat.cast_nonneg _) (Nat.cast_nonneg _)
  · by_cases h0 : (parseKeywords ks).length = 0
    · simp [h0]
    · simp only [if_neg h0]
      have hle : (kwPartition (strLower t) (parseKeywords ks)).1.length ≤
          (parseKeywords ks).length := by
        rw [hpart]
        exact List.length_filter_le _ _
      have hpos : (0 : Rat) < ((parseKeywords ks).length : Rat) := by
        exact_mod_cast Nat.pos_of_ne_zero h0
      rw [div_le_one hpos]
      exact_mod_cast hle

/-- Witness for C5: two keywords, one found, score one half. -/
theorem keyword_score_spec_witness :
    (compute_keyword_score "python rocks" (Cell.str "python, java")).score =
      (((compute_keyword_score "python rocks" (Cell.str "python, java")).found.length : Rat) /
        ((parseKeywords (Cell.str "python, java")).length : Rat)) ∧
    parseKeywords (Cell.str "python, java") ≠ [] :=
  ⟨(keyword_score_spec "python rocks" (Cell.str "python, java")).2.2.1 (by decide),
   by decide⟩

/-- Claim C1 (code-bug evidence): a rubric row without any keywords column makes
`_get_first_existing` yield `NaN`, and `compute_keyword_score` turns it into
the literal keyword `"nan"` via `str(nan)`: the transcript `"hello world"`
gets keyword score 0 with `missing = ["nan"]`, instead of the vacuous score 1
with empty lists that the spec prescribes for an absent keywords field. -/
theorem missing_keywords_scores_nan_keyword :
    score_transcript none "hello world" [[("Criterion", Cell.str "Communication")]] =
      some ⟨25, 2, [⟨"Communication", 1, 0, 1/2, 1, 1/4, [], ["nan"], ""⟩]⟩ := by
  have ht : preprocess_text "hello world" = "hello world" := by decide
  have hwc : pyWordCount "hello world" = 2 := by decide
  have hkw : compute_keyword_score "hello world" Cell.na = ⟨0, [], ["nan"]⟩ := by
    have h1 : parseKeywords Cell.na = ["nan"] := by decide
    have h2 : kwPartition (strLower "hello world") ["nan"] = ([], ["nan"]) := by decide
    simp [compute_keyword_score, h1, h2]
  have hb1 : resolveBound [("Criterion", Cell.str "Communication")]
      ["MinWords", "Min Words"] = some none := by decide
  have hb2 : resolveBound [("Criterion", Cell.str "Communication")]
      ["MaxWords", "Max Words"] = some none := by decide
  have hname : _get_criterion_name [("Criterion", Cell.str "Communication")] =
      "Communication" := by decide
  have hdesc : _get_first_existing [("Criterion", Cell.str "Communication")]
      ["Description", "Criteria Description", "Detail", "Details"] = Cell.na := by decide
  have hkcell : _get_first_existing [("Criterion", Cell.str "Communication")]
      ["Keywords", "Keyword", "Key words", "KeyWords"] = Cell.na := by decide
  have hwt : resolveWeight [("Criterion", Cell.str "Communication")] = 1 := by decide
  have hsem : compute_semantic_score none "hello world" Cell.na = 1/2 := rfl
  have hlp : compute_length_penalty 2 none none = ⟨1, ""⟩ := rfl
  simp only [score_transcript, ht, hwc, optMap, scoreRow, hb1, hb2, hname, hdesc,
    hkcell, hwt, hkw, hsem, hlp]
  have hf1 : ((5001 : Rat)/2).floor = 2500 := rat_floor_eq _ _ (by norm_num) (by norm_num)
  have hf2 : ((1 : Rat)/2).floor = 0 := rat_floor_eq _ _ (by norm_num) (by norm_num)
  have hf3 : ((1001 : Rat)/2).floor = 500 := rat_floor_eq _ _ (by norm_num) (by norm_num)
  have hf4 : ((2001 : Rat)/2).floor = 1000 := rat_floor_eq _ _ (by norm_num) (by norm_num)
  have hf5 : ((501 : Rat)/2).floor = 250 := rat_floor_eq _ _ (by norm_num) (by norm_num)
  norm_num [pyRoundTo, hf1, hf2, hf3, hf4, hf5]

/-! ## Field resolution (claims C2, C7) -/

/-- Claim C2 counterexample: with a present-but-missing `Keywords` column
followed by a non-missing `Keyword` column, `_get_first_existing` returns the
missing value instead of skipping to the later synonym as the spec's
resolution policy (`specFieldResolution`) prescribes. -/
theorem field_resolution_counterexample :
    _get_first_existing [("Keywords", Cell.na), ("Keyword", Cell.str "python")]
      ["Keywords", "Keyword", "Key words", "KeyWords"] = Cell.na ∧
    specFieldResolution [("Keywords", Cell.na), ("Keyword", Cell.str "python")]
      ["Keywords", "Keyword", "Key words", "KeyWords"] = Cell.str "python" ∧
    Cell.na ≠ Cell.str "python" :=
  ⟨by decide, by decide, by decide⟩

/-- Claim C2 amended: field resolution scans the synonym list in priority order
and returns the value of the first column that is PRESENT — missing or not —
and `NaN` when no candidate column is present; a present column whose value is
missing is NOT skipped. -/
theorem field_resolution_first_present (row : Row) (cands : List String) :
    _get_first_existing row cands =
      (match cands.find? (fun c => (rowGet? row c).isSome) with
       | some c => (rowGet? row c).getD Cell.na
       | none => Cell.na) := by
  induction cands with
  | nil => rfl
  | cons c rest ih =>
    simp only [_get_first_existing, List.find?_cons]
    cases h : rowGet? row c with
    | some v => simp [h]
    | none => simp [h, ih]

/-- Claim C7 counterexample: a whitespace-only `Criterion` cell is non-missing,
so the code strips it and returns the empty string as criterion name — the
name is not always non-empty. -/
theorem criterion_name_empty_on_blank :
    _get_criterion_name [("Criterion", Cell.str " ")] = "" := by decide

lemma rowGet?_mem (row : Row) (c : String) (v : Cell) (h : rowGet? row c = some v) :
    ∃ p ∈ row, p.2 = v := by
  unfold rowGet? at h
  cases hf : row.find? (fun p => p.1 == c) with
  | none => rw [hf] at h; simp at h
  | some p =>
    rw [hf] at h
    refine ⟨p, List.mem_of_find?_eq_some hf, ?_⟩
    simpa using h

lemma nameFromSyns_sound (row : Row) (syns : List String) (n : String)
    (h : nameFromSyns row syns = some n) :
    ∃ p ∈ row, p.2 ≠ Cell.na ∧ n = pyStripStr (pyStr p.2) := by
  induction syns with
  | nil => simp [nameFromSyns] at h
  | cons c rest ih =>
    cases hg : rowGet? row c with
    | none =>
      simp only [nameFromSyns, hg] at h
      exact ih h
    | some v =>
      simp only [nameFromSyns, hg] at h
      by_cases hv : v = Cell.na
      · rw [if_pos hv] at h
        exact ih h
      · rw [if_neg hv] at h
        obtain ⟨p, hp, hpv⟩ := rowGet?_mem row c v hg
        refine ⟨p, hp, by rw [hpv]; exact hv, ?_⟩
        rw [hpv]
        exact (Option.some_inj.mp h).symm

lemma nameFromCells_sound (row : Row) (n : String)
    (h : nameFromCells row = some n) :
    ∃ p ∈ row, p.2 ≠ Cell.na ∧ n = pyStripStr (pyStr p.2) := by
  induction row with
  | nil => simp [nameFromCells] at h
  | cons p rest ih =>
    simp only [nameFromCells] at h
    by_cases hv : p.2 = Cell.na
    · rw [if_pos hv] at h
      obtain ⟨q, hq, hqr⟩ := ih h
      exact ⟨q, List.mem_cons_of_mem p hq, hqr⟩
    · rw [if_neg hv] at h
      refine ⟨p, List.mem_cons_self p rest, hv, ?_⟩
      exact (Option.some_inj.mp h).symm

/-- Claim C7 amended: the resolved criterion name is the stripped string form of
the first non-missing name-synonym cell, else of the first non-missing cell of
the row, else the fixed placeholder; it is non-empty provided every
non-missing cell of the row strips to a non-empty string (a whitespace-only
cell can make it empty). -/
theorem criterion_name_nonempty (row : Row)
    (h : ∀ p ∈ row, p.2 ≠ Cell.na → pyStripStr (pyStr p.2) ≠ "") :
    _get_criterion_name row ≠ "" := by
  unfold _get_criterion_name
  cases hs : nameFromSyns row ["Criterion", "Criteria", "Parameter", "Aspect"] with
  | some n =>
    obtain ⟨p, hp, hpna, rfl⟩ := nameFromSyns_sound row _ n hs
    exact h p hp hpna
  | none =>
    cases hc : nameFromCells row with
    | some n =>
      obtain ⟨p, hp, hpna, rfl⟩ := nameFromCells_sound row n hc
      exact h p hp hpna
    | none => decide

/-- Witness for C7 (amended): a row whose only cell is the non-blank string
`"Communication"` resolves to a non-empty name. -/
theorem criterion_name_nonempty_witness :
    _get_criterion_name [("Criterion", Cell.str "Communication")] ≠ "" :=
  criterion_name_nonempty _ (by decide)

/-! ## Semantic fallback (claim C8) -/

lemma scoreRow_isSome (model : Option Capability) (t : String) (wc : Nat) (row : Row) :
    (scoreRow model t wc row).isSome =
      ((resolveBound row ["MinWords", "Min Words"]).isSome &&
       (resolveBound row ["MaxWords", "Max Words"]).isSome) := by
  unfold scoreRow
  cases h1 : resolveBound row ["MinWords", "Min Words"] <;>
    cases h2 : resolveBound row ["MaxWords", "Max Words"] <;> simp

lemma optMap_cons_isSome {α β : Type} (f : α → Option β) (a : α) (l : List α) :
    (optMap f (a :: l)).isSome = ((f a).isSome && (optMap f l).isSome) := by
  simp only [optMap]
  cases f a <;> cases optMap f l <;> simp

lemma optMap_isSome_congr {α β : Type} (f g : α → Option β)
    (h : ∀ a, (f a).isSome = (g a).isSome) :
    ∀ l : List α, (optMap f l).isSome = (optMap g l).isSome := by
  intro l
  induction l with
  | nil => rfl
  | cons a l ih => rw [optMap_cons_isSome, optMap_cons_isSome, h a, ih]

lemma score_transcript_isSome_eq (model : Option Capability) (t : String)
    (rubric : List Row) :
    (score_transcript model t rubric).isSome =
      (optMap (scoreRow model (preprocess_text t) (pyWordCount (preprocess_text t)))
        rubric).isSome := by
  unfold score_transcript
  cases h : optMap (scoreRow model (preprocess_text t)
      (pyWordCount (preprocess_text t))) rubric <;> simp [h]

/-- Claim C8: When the embedding capability failed to initialize (`model = none`)
the semantic score is exactly 1/2 for every transcript and description, and
whether a scoring call succeeds does not depend on the capability at all. -/
theorem semantic_fallback_neutral :
    (∀ (t : String) (d : Cell), compute_semantic_score none t d = 1/2) ∧
    (∀ (model : Option Capability) (t : String) (rubric : List Row),
      (score_transcript model t rubric).isSome =
        (score_transcript none t rubric).isSome) := by
  constructor
  · intro t d
    rfl
  · intro model t rubric
    rw [score_transcript_isSome_eq, score_transcript_isSome_eq]
    exact optMap_isSome_congr _ _
      (fun row => by rw [scoreRow_isSome, scoreRow_isSome]) rubric

/-! ## Text normalization (claim C9) -/

lemma pyIsSpace_blankify (c : Char) : pyIsSpace (blankify c) = pyIsSpace c := by
  unfold blankify
  by_cases h : pyIsSpace c = true
  · simp [h]
    decide
  · simp [h]

lemma collapse_head? (l : List Char) : (collapse l).head? = l.head?.map blankify := by
  induction l with
  | nil => rfl
  | cons c rest ih =>
    cases rest with
    | nil =>
      by_cases h : pyIsSpace c = true <;> simp [collapse, blankify, h]
    | cons d rest2 =>
      simp only [collapse]
      by_cases h : (pyIsSpace c && pyIsSpace d) = true
      · rw [if_pos h]
        rw [ih]
        simp only [Bool.and_eq_true] at h
        simp [blankify, h.1, h.2]
      · rw [if_neg h]
        simp [blankify]

lemma collapse_ne_nil : ∀ {l : List Char}, l ≠ [] → collapse l ≠ [] := by
  intro l
  induction l with
  | nil => intro h; exact absurd rfl h
  | cons c rest ih =>
    intro _
    cases rest with
    | nil =>
      by_cases h : pyIsSpace c = true <;> simp [collapse, h]
    | cons d rest2 =>
      simp only [collapse]
      by_cases h : (pyIsSpace c && pyIsSpace d) = true
      · rw [if_pos h]
        exact ih (List.cons_ne_nil d rest2)
      · rw [if_neg h]
        exact List.cons_ne_nil _ _

lemma collapse_getLast? (l : List Char) :
    (collapse l).getLast? = l.getLast?.map blankify := by
  induction l with
  | nil => rfl
  | cons c rest ih =>
    cases rest with
    | nil =>
      by_cases h : pyIsSpace c = true <;> simp [collapse, blankify, h]
    | cons d rest2 =>
      simp only [collapse]
      by_cases h : (pyIsSpace c && pyIsSpace d) = true
      · rw [if_pos h, ih, List.getLast?_cons_cons]
      · rw [if_neg h]
        obtain ⟨y, ys, hy⟩ :=
          List.exists_cons_of_ne_nil (collapse_ne_nil (List.cons_ne_nil d rest2))
        rw [hy, List.getLast?_cons_cons, ← hy, ih, List.getLast?_cons_cons]

lemma collapse_allBlank (l : List Char) : AllBlank (collapse l) := by
  induction l with
  | nil => intro c hc; simp [collapse] at hc
  | cons c rest ih =>
    cases rest with
    | nil =>
      intro x hx hsp
      by_cases h : pyIsSpace c = true
      · simp [collapse, h] at hx
        simp [hx]
      · simp [collapse, h] at hx
        rw [hx] at hsp
        exact absurd hsp (by simpa using h)
    | cons d rest2 =>
      simp only [collapse]
      by_cases h : (pyIsSpace c && pyIsSpace d) = true
      · rw [if_pos h]
        exact ih
      · rw [if_neg h]
        intro x hx hsp
        rcases List.mem_cons.mp hx with hx1 | hx2
        · subst hx1
          by_cases hc : pyIsSpace c = true
          · simp [hc]
          · simp only [if_neg hc] at hsp ⊢
            exact absurd hsp (by simpa using hc)
        · exact ih x hx2 hsp

lemma collapse_noAdjSpace (l : List Char) : NoAdjSpace (collapse l) := by
  induction l with
  | nil => exact List.chain'_nil
  | cons c rest ih =>
    cases rest with
    | nil =>
      by_cases h : pyIsSpace c = true <;> simp [collapse, h, NoAdjSpace]
    | cons d rest2 =>
      simp only [collapse]
      by_cases h : (pyIsSpace c && pyIsSpace d) = true
      · rw [if_pos h]
        exact ih
      · rw [if_neg h]
        refine List.Chain'.cons' ih ?_
        intro y hy
        rw [collapse_head?] at hy
        simp only [List.head?_cons, Option.map_some'] at hy
        have hyd : blankify d = y := by simpa using hy
        subst hyd
        simp only [Bool.and_eq_true] at h
        intro hcon
        rcases hcon with ⟨h1, h2⟩
        rw [pyIsSpace_blankify] at h2
        by_cases hc : pyIsSpace c = true
        · exact h ⟨hc, h2⟩
        · rw [if_neg hc] at h1
          exact hc h1

lemma collapse_id {l : List Char} (hb : AllBlank l) (hn : NoAdjSpace l) :
    collapse l = l := by
  induction l with
  | nil => rfl
  | cons c rest ih =>
    cases rest with
    | nil =>
      by_cases h : pyIsSpace c = true
      · simp only [collapse, if_pos h]
        rw [hb c (List.mem_cons_self c []) h]
      · simp [collapse, h]
    | cons d rest2 =>
      have hcd : ¬(pyIsSpace c = true ∧ pyIsSpace d = true) :=
        List.chain'_cons.mp hn |>.1
      simp only [collapse]
      rw [if_neg (by simpa using hcd)]
      have htail : collapse (d :: rest2) = d :: rest2 :=
        ih (fun x hx => hb x (List.mem_cons_of_mem c hx)) (List.chain'_cons.mp hn).2
      rw [htail]
      by_cases h : pyIsSpace c = true
      · rw [if_pos h, hb c (List.mem_cons_self c _) h]
      · rw [if_neg h]

lemma dropWhile_head_false {α : Type} (p : α → Bool) (l : List α) (c : α)
    (h : (l.dropWhile p).head? = some c) : p c = false := by
  induction l with
  | nil => simp at h
  | cons a l ih =>
    by_cases hp : p a = true
    · rw [List.dropWhile_cons, if_pos hp] at h
      exact ih h
    · rw [List.dropWhile_cons, if_neg hp] at h
      simp only [List.head?_cons, Option.some_inj] at h
      subst h
      simpa using hp

lemma dropWhile_eq_self {α : Type} (p : α → Bool) (l : List α)
    (h : ∀ c, l.head? = some c → p c = false) : l.dropWhile p = l := by
  cases l with
  | nil => rfl
  | cons a l =>
    rw [List.dropWhile_cons, if_neg (by simp [h a rfl])]

lemma dropWhile_getLast? {α : Type} (p : α → Bool) (l : List α)
    (h : l.dropWhile p ≠ []) : (l.dropWhile p).getLast? = l.getLast? := by
  induction l with
  | nil => simp at h
  | cons a l ih =>
    by_cases hp : p a = true
    · rw [List.dropWhile_cons, if_pos hp] at h ⊢
      cases l with
      | nil => simp at h
      | cons b l2 =>
        rw [ih h, List.getLast?_cons_cons]
    · rw [List.dropWhile_cons, if_neg hp]

lemma pyStrip_head_not_space (l : List Char) (c : Char)
    (h : (pyStrip l).head? = some c) : pyIsSpace c = false := by
  unfold pyStrip at h
  rw [List.head?_reverse] at h
  have hne : (l.dropWhile pyIsSpace).reverse.dropWhile pyIsSpace ≠ [] := by
    intro hnil
    rw [hnil] at h
    simp at h
  rw [dropWhile_getLast? _ _ hne, List.getLast?_reverse] at h
  exact dropWhile_head_false pyIsSpace l c h

lemma pyStrip_last_not_space (l : List Char) (c : Char)
    (h : (pyStrip l).getLast? = some c) : pyIsSpace c = false := by
  unfold pyStrip at h
  rw [List.getLast?_reverse] at h
  exact dropWhile_head_false pyIsSpace _ c h

lemma pyStrip_eq_self (l : List Char)
    (hh : ∀ c, l.head? = some c → pyIsSpace c = false)
    (hl : ∀ c, l.getLast? = some c → pyIsSpace c = false) : pyStrip l = l := by
  unfold pyStrip
  rw [dropWhile_eq_self _ _ hh]
  rw [dropWhile_eq_self _ _ (fun c hc => hl c (by rwa [List.head?_reverse] at hc))]
  exact List.reverse_reverse l

/-- Claim C9: `preprocess_text` is idempotent: normalizing an already normalized
string returns it unchanged. -/
theorem preprocess_text_idempotent (s : String) :
    preprocess_text (preprocess_text s) = preprocess_text s := by
  cases s with
  | mk data =>
    show String.mk (collapse ((pyStrip (collapse ((pyStrip data).map nlToSp))).map nlToSp)) =
      String.mk (collapse ((pyStrip data).map nlToSp))
    set m : List Char := (pyStrip data).map nlToSp with hm
    set r : List Char := collapse m with hr
    have hb : AllBlank r := collapse_allBlank m
    have hn : NoAdjSpace r := collapse_noAdjSpace m
    have hmh : ∀ c, m.head? = some c → pyIsSpace c = false := by
      intro c hc
      rw [hm, List.head?_map] at hc
      cases hs : (pyStrip data).head? with
      | none => rw [hs] at hc; simp at hc
      | some c0 =>
        rw [hs] at hc
        simp only [Option.map_some', Option.some_inj] at hc
        have h0 := pyStrip_head_not_space data c0 hs
        have : nlToSp c0 = c0 := by
          unfold nlToSp
          rw [if_neg (fun he => by rw [he] at h0; exact absurd h0 (by decide))]
        rw [← hc, this]
        exact h0
    have hml : ∀ c, m.getLast? = some c → pyIsSpace c = false := by
      intro c hc
      rw [hm, List.getLast?_map] at hc
      cases hs : (pyStrip data).getLast? with
      | none => rw [hs] at hc; simp at hc
      | some c0 =>
        rw [hs] at hc
        simp only [Option.map_some', Option.some_inj] at hc
        have h0 := pyStrip_last_not_space data c0 hs
        have : nlToSp c0 = c0 := by
          unfold nlToSp
          rw [if_neg (fun he => by rw [he] at h0; exact absurd h0 (by decide))]
        rw [← hc, this]
        exact h0
    have hrh : ∀ c, r.head? = some c → pyIsSpace c = false := by
      intro c hc
      rw [hr, collapse_head?] at hc
      cases hs : m.head? with
      | none => rw [hs] at hc; simp at hc
      | some c0 =>
        rw [hs] at hc
        simp only [Option.map_some', Option.some_inj] at hc
        have h0 := hmh c0 hs
        rw [← hc, pyIsSpace_blankify]
        exact h0
    have hrl : ∀ c, r.getLast? = some c → pyIsSpace c = false := by
      intro c hc
      rw [hr, collapse_getLast?] at hc
      cases hs : m.getLast? with
      | none => rw [hs] at hc; simp at hc
      | some c0 =>
        rw [hs] at hc
        simp only [Option.map_some', Option.some_inj] at hc
        have h0 := hml c0 hs
        rw [← hc, pyIsSpace_blankify]
        exact h0
    have hstrip : pyStrip r = r := pyStrip_eq_self r hrh hrl
    have hmap : r.map nlToSp = r := by
      have : ∀ c ∈ r, nlToSp c = c := by
        intro c hcr
        unfold nlToSp
        by_cases hcn : c = '\n'
        · subst hcn
          have := hb '\n' hcr (by decide)
          exact absurd this (by decide)
        · rw [if_neg hcn]
      rw [List.map_congr_left this]
      simp
    rw [hstrip, hmap, collapse_id hb hn]

/-! ## Aggregation (claim C3) -/

lemma compute_keyword_score_bounds (t : String) (ks : Cell) :
    0 ≤ (compute_keyword_score t ks).score ∧ (compute_keyword_score t ks).score ≤ 1 := by
  have hck : (compute_keyword_score t ks).score =
      (if (parseKeywords ks).length = 0 then 1
        else (((kwPartition (strLower t) (parseKeywords ks)).1.length : Rat) /
          ((parseKeywords ks).length : Rat))) := rfl
  rw [hck]
  by_cases h0 : (parseKeywords ks).length = 0
  · simp [h0]
  · rw [if_neg h0]
    have hle : (kwPartition (strLower t) (parseKeywords ks)).1.length ≤
        (parseKeywords ks).length := by
      rw [kwPartition_eq_filters]
      exact List.length_filter_le _ _
    have hpos : (0 : Rat) < ((parseKeywords ks).length : Rat) := by
      exact_mod_cast Nat.pos_of_ne_zero h0
    constructor
    · exact div_nonneg (Nat.cast_nonneg _) (Nat.cast_nonneg _)
    · rw [div_le_one hpos]
      exact_mod_cast hle

lemma compute_semantic_score_bounds (model : Option Capability) (t : String)
    (d : Cell) (hcap : capInRange model) :
    0 ≤ compute_semantic_score model t d ∧ compute_semantic_score model t d ≤ 1 := by
  cases model with
  | none =>
    constructor <;> norm_num [compute_semantic_score]
  | some cap =>
    have h := hcap cap rfl t (pyStr d)
    simp only [compute_semantic_score]
    refine ⟨div_nonneg (by linarith [h.1]) (by norm_num), ?_⟩
    rw [div_le_one (by norm_num)]
    linarith [h.2]

lemma compute_length_penalty_bounds (wc : Nat) (minW maxW : Option Rat) :
    (2/5 : Rat) ≤ (compute_length_penalty wc minW maxW).penalty ∧
    (compute_length_penalty wc minW maxW).penalty ≤ 1 := by
  unfold compute_length_penalty
  split_ifs with h1 h2 h3
  · exact ⟨by norm_num, le_refl 1⟩
  · cases minW with
    | none => simp [belowMin] at h2
    | some m =>
      simp only [belowMin, decide_eq_true_eq] at h2
      simp only [Option.getD_some]
      exact ⟨penalty_branch_lower _ _, penalty_branch_le_one _ _ (by linarith)⟩
  · cases maxW with
    | none => simp [aboveMax] at h3
    | some mx =>
      simp only [aboveMax, decide_eq_true_eq] at h3
      simp only [Option.getD_some]
      exact ⟨penalty_branch_lower _ _, penalty_branch_le_one _ _ (by linarith)⟩
  · exact ⟨by norm_num, le_refl 1⟩

lemma scoreRow_some_props (model : Option Capability) (t : String) (wc : Nat)
    (row : Row) (x : RowScore) (hx : scoreRow model t wc row = some x)
    (hcap : capInRange model) :
    (0 ≤ x.fin ∧ x.fin ≤ 1) ∧ x.weight = resolveWeight row := by
  unfold scoreRow at hx
  cases hb1 : resolveBound row ["MinWords", "Min Words"] with
  | none => rw [hb1] at hx; simp at hx
  | some minW =>
    cases hb2 : resolveBound row ["MaxWords", "Max Words"] with
    | none => rw [hb1, hb2] at hx; simp at hx
    | some maxW =>
      rw [hb1, hb2] at hx
      simp only [Option.some_inj] at hx
      subst hx
      refine ⟨?_, rfl⟩
      have hkw := compute_keyword_score_bounds t
        (_get_first_existing row ["Keywords", "Keyword", "Key words", "KeyWords"])
      have hsem := compute_semantic_score_bounds model t
        (_get_first_existing row ["Description", "Criteria Description", "Detail", "Details"])
        hcap
      have hpen := compute_length_penalty_bounds wc minW maxW
      constructor
      · exact mul_nonneg (by linarith [hkw.1, hsem.1]) (by linarith [hpen.1])
      · exact mul_le_one₀ (by linarith [hkw.2, hsem.2]) (by linarith [hpen.1])
          (by linarith [hpen.2])

lemma optMap_mem {α β : Type} (f : α → Option β) (l : List α) (bl : List β)
    (h : optMap f l = some bl) : ∀ b ∈ bl, ∃ a ∈ l, f a = some b := by
  induction l generalizing bl with
  | nil =>
    simp only [optMap, Option.some_inj] at h
    subst h
    intro b hb
    simp at hb
  | cons a l ih =>
    cases hfa : f a with
    | none =>
      simp only [optMap, hfa] at h
      exact Option.noConfusion h
    | some b0 =>
      cases hml : optMap f l with
      | none =>
        simp only [optMap, hfa, hml] at h
        exact Option.noConfusion h
      | some bl0 =>
        simp only [optMap, hfa, hml, Option.some_inj] at h
        subst h
        intro b hb
        rcases List.mem_cons.mp hb with rfl | hb2
        · exact ⟨a, List.mem_cons_self a l, hfa⟩
        · obtain ⟨a2, ha2, hfa2⟩ := ih bl0 hml b hb2
          exact ⟨a2, List.mem_cons_of_mem a ha2, hfa2⟩

lemma pyRoundTo_eq_intFloor (n : Nat) (x : Rat) :
    pyRoundTo n x = ((⌊x * (10 : Rat)^n + 1/2⌋ : Int) : Rat) / (10 : Rat)^n := rfl

lemma pyRoundTo_nonneg (n : Nat) (x : Rat) (hx : 0 ≤ x) : 0 ≤ pyRoundTo n x := by
  rw [pyRoundTo_eq_intFloor]
  apply div_nonneg _ (by positivity)
  have h : (0 : Int) ≤ ⌊x * (10 : Rat)^n + 1/2⌋ := by
    apply Int.le_floor.mpr
    push_cast
    positivity
  exact_mod_cast h

lemma pyRoundTo_two_le_100 (x : Rat) (hx : x ≤ 100) : pyRoundTo 2 x ≤ 100 := by
  rw [pyRoundTo_eq_intFloor]
  rw [div_le_iff₀ (by positivity)]
  have h : ⌊x * (10 : Rat)^2 + 1/2⌋ < 10001 := by
    apply Int.floor_lt.mpr
    push_cast
    nlinarith
  have h2 : ⌊x * (10 : Rat)^2 + 1/2⌋ ≤ 10000 := by omega
  calc ((⌊x * (10 : Rat)^2 + 1/2⌋ : Int) : Rat) ≤ ((10000 : Int) : Rat) := by
        exact_mod_cast h2
    _ = 100 * (10 : Rat)^2 := by norm_num

lemma pyRoundTo_zero (n : Nat) : pyRoundTo n 0 = 0 := by
  rw [pyRoundTo_eq_intFloor]
  have h : ⌊(0 : Rat) * (10 : Rat)^n + 1/2⌋ = 0 := by
    apply Int.floor_eq_iff.mpr
    constructor <;> [simp; norm_num]
  rw [h]
  simp

/-- Claim C3 amended: the returned `overall_score` is the weighted mean of the
(unrounded) per-criterion final scores scaled by 100 and rounded to 2
decimals, is 0 whenever the total weight is 0 (in particular for an empty
rubric), and lies between 0 and 100 PROVIDED every resolved weight is
nonnegative and the capability returns similarities in the contract interval;
with a negative weight the bound can fail (see the counterexample). -/
theorem overall_score_weighted_mean (model : Option Capability) (t : String)
    (rubric : List Row) (r : ScoreResult)
    (hr : score_transcript model t rubric = some r)
    (hcap : capInRange model)
    (hw : ∀ row ∈ rubric, 0 ≤ resolveWeight row) :
    ∃ rows : List RowScore,
      optMap (scoreRow model (preprocess_text t) (pyWordCount (preprocess_text t)))
        rubric = some rows ∧
      r.overall_score = pyRoundTo 2
        ((if (rows.map (fun x => x.weight)).sum = 0 then 0
          else (rows.map (fun x => x.fin * x.weight)).sum /
            (rows.map (fun x => x.weight)).sum) * 100) ∧
      ((rows.map (fun x => x.weight)).sum = 0 → r.overall_score = 0) ∧
      0 ≤ r.overall_score ∧ r.overall_score ≤ 100 := by
  simp only [score_transcript] at hr
  cases hrows : optMap (scoreRow model (preprocess_text t)
      (pyWordCount (preprocess_text t))) rubric with
  | none =>
    rw [hrows] at hr
    exact Option.noConfusion hr
  | some rows =>
    rw [hrows] at hr
    have hre := Option.some_inj.mp hr
    subst hre
    refine ⟨rows, rfl, rfl, ?_, ?_⟩
    · intro hW
      show pyRoundTo 2 ((if (rows.map (fun x => x.weight)).sum = 0 then (0 : Rat)
        else (rows.map (fun x => x.fin * x.weight)).sum /
          (rows.map (fun x => x.weight)).sum) * 100) = 0
      rw [if_pos hW, zero_mul, pyRoundTo_zero]
    · have hprops : ∀ x ∈ rows, (0 ≤ x.fin ∧ x.fin ≤ 1) ∧ 0 ≤ x.weight := by
        intro x hx
        obtain ⟨row, hrow, hfx⟩ := optMap_mem _ _ _ hrows x hx
        have hp := scoreRow_some_props _ _ _ _ _ hfx hcap
        exact ⟨hp.1, hp.2 ▸ hw row hrow⟩
      have hS0 : 0 ≤ (rows.map (fun x => x.fin * x.weight)).sum := by
        apply List.sum_nonneg
        intro q hq
        simp only [List.mem_map] at hq
        obtain ⟨x, hx, rfl⟩ := hq
        exact mul_nonneg ((hprops x hx).1).1 (hprops x hx).2
      have hW0 : 0 ≤ (rows.map (fun x => x.weight)).sum := by
        apply List.sum_nonneg
        intro q hq
        simp only [List.mem_map] at hq
        obtain ⟨x, hx, rfl⟩ := hq
        exact (hprops x hx).2
      have hSW : (rows.map (fun x => x.fin * x.weight)).sum ≤
          (rows.map (fun x => x.weight)).sum := by
        apply List.sum_le_sum
        intro x hx
        nlinarith [((hprops x hx).1).1, ((hprops x hx).1).2, (hprops x hx).2]
      show 0 ≤ pyRoundTo 2 ((if (rows.map (fun x => x.weight)).sum = 0 then (0 : Rat)
          else (rows.map (fun x => x.fin * x.weight)).sum /
            (rows.map (fun x => x.weight)).sum) * 100) ∧
        pyRoundTo 2 ((if (rows.map (fun x => x.weight)).sum = 0 then (0 : Rat)
          else (rows.map (fun x => x.fin * x.weight)).sum /
            (rows.map (fun x => x.weight)).sum) * 100) ≤ 100
      by_cases hW : (rows.map (fun x => x.weight)).sum = 0
      · rw [if_pos hW, zero_mul, pyRoundTo_zero]
        exact ⟨le_refl 0, by norm_num⟩
      · rw [if_neg hW]
        have hWpos : 0 < (rows.map (fun x => x.weight)).sum :=
          lt_of_le_of_ne hW0 (Ne.symm hW)
        have hdiv0 : 0 ≤ (rows.map (fun x => x.fin * x.weight)).sum /
            (rows.map (fun x => x.weight)).sum := div_nonneg hS0 hW0
        have hdiv1 : (rows.map (fun x => x.fin * x.weight)).sum /
            (rows.map (fun x => x.weight)).sum ≤ 1 := (div_le_one hWpos).mpr hSW
        exact ⟨pyRoundTo_nonneg _ _ (by positivity),
          pyRoundTo_two_le_100 _ (by nlinarith)⟩

/-- Claim C3 counterexample: with rubric weights 2 and -1 (weights are never
validated), the transcript `"python java"` gets overall score 125, outside
the claimed range 0 to 100. -/
theorem overall_score_exceeds_100 :
    (score_transcript none "python java"
      [[("Criterion", Cell.str "A"), ("Keywords", Cell.str "python"),
        ("Weight", Cell.num 2)],
       [("Criterion", Cell.str "B"), ("Keywords", Cell.str "zzz"),
        ("Weight", Cell.num (-1))]]).map ScoreResult.overall_score = some 125 ∧
    ¬ ((125 : Rat) ≤ 100) := by
  have ht : preprocess_text "python java" = "python java" := by decide
  have hwc : pyWordCount "python java" = 2 := by decide
  have hb11 : resolveBound [("Criterion", Cell.str "A"), ("Keywords", Cell.str "python"),
      ("Weight", Cell.num 2)] ["MinWords", "Min Words"] = some none := by decide
  have hb12 : resolveBound [("Criterion", Cell.str "A"), ("Keywords", Cell.str "python"),
      ("Weight", Cell.num 2)] ["MaxWords", "Max Words"] = some none := by decide
  have hb21 : resolveBound [("Criterion", Cell.str "B"), ("Keywords", Cell.str "zzz"),
      ("Weight", Cell.num (-1))] ["MinWords", "Min Words"] = some none := by decide
  have hb22 : resolveBound [("Criterion", Cell.str "B"), ("Keywords", Cell.str "zzz"),
      ("Weight", Cell.num (-1))] ["MaxWords", "Max Words"] = some none := by decide
  have hname1 : _get_criterion_name [("Criterion", Cell.str "A"),
      ("Keywords", Cell.str "python"), ("Weight", Cell.num 2)] = "A" := by decide
  have hname2 : _get_criterion_name [("Criterion", Cell.str "B"),
      ("Keywords", Cell.str "zzz"), ("Weight", Cell.num (-1))] = "B" := by decide
  have hdesc1 : _get_first_existing [("Criterion", Cell.str "A"),
      ("Keywords", Cell.str "python"), ("Weight", Cell.num 2)]
      ["Description", "Criteria Description", "Detail", "Details"] = Cell.na := by decide
  have hdesc2 : _get_first_existing [("Criterion", Cell.str "B"),
      ("Keywords", Cell.str "zzz"), ("Weight", Cell.num (-1))]
      ["Description", "Criteria Description", "Detail", "Details"] = Cell.na := by decide
  have hkc1 : _get_first_existing [("Criterion", Cell.str "A"),
      ("Keywords", Cell.str "python"), ("Weight", Cell.num 2)]
      ["Keywords", "Keyword", "Key words", "KeyWords"] = Cell.str "python" := by decide
  have hkc2 : _get_first_existing [("Criterion", Cell.str "B"),
      ("Keywords", Cell.str "zzz"), ("Weight", Cell.num (-1))]
      ["Keywords", "Keyword", "Key words", "KeyWords"] = Cell.str "zzz" := by decide
  have hwcell1 : _get_first_existing [("Criterion", Cell.str "A"),
      ("Keywords", Cell.str "python"), ("Weight", Cell.num 2)]
      ["Weight", "Weights", "MaxScore"] = Cell.num 2 := by decide
  have hwcell2 : _get_first_existing [("Criterion", Cell.str "B"),
      ("Keywords", Cell.str "zzz"), ("Weight", Cell.num (-1))]
      ["Weight", "Weights", "MaxScore"] = Cell.num (-1) := by decide
  have hwt1 : resolveWeight [("Criterion", Cell.str "A"),
      ("Keywords", Cell.str "python"), ("Weight", Cell.num 2)] = 2 := by
    simp [resolveWeight, hwcell1]
  have hwt2 : resolveWeight [("Criterion", Cell.str "B"),
      ("Keywords", Cell.str "zzz"), ("Weight", Cell.num (-1))] = -1 := by
    simp [resolveWeight, hwcell2]
  have hkw1 : compute_keyword_score "python java" (Cell.str "python") =
      ⟨1, ["python"], []⟩ := by
    have h1 : parseKeywords (Cell.str "python") = ["python"] := by decide
    have h2 : kwPartition (strLower "python java") ["python"] = (["python"], []) := by
      decide
    simp [compute_keyword_score, h1, h2]
  have hkw2 : compute_keyword_score "python java" (Cell.str "zzz") =
      ⟨0, [], ["zzz"]⟩ := by
    have h1 : parseKeywords (Cell.str "zzz") = ["zzz"] := by decide
    have h2 : kwPartition (strLower "python java") ["zzz"] = ([], ["zzz"]) := by decide
    simp [compute_keyword_score, h1, h2]
  have hsem : compute_semantic_score none "python java" Cell.na = 1/2 := rfl
  have hlp : compute_length_penalty 2 none none = ⟨1, ""⟩ := rfl
  refine ⟨?_, by norm_num⟩
  simp only [score_transcript, ht, hwc, optMap, scoreRow, hb11, hb12, hb21, hb22,
    hname1, hname2, hdesc1, hdesc2, hkc1, hkc2, hwt1, hwt2, hkw1, hkw2, hsem, hlp]
  have hf : ((25001 : Rat)/2).floor = 12500 :=
    rat_floor_eq _ _ (by norm_num) (by norm_num)
  norm_num [pyRoundTo, hf]

/-- Witness for C3 (amended): a single criterion of weight 1 on the transcript
`"hi"` gives overall score 25, inside the unit-to-100 range. -/
theorem overall_score_weighted_mean_witness :
    score_transcript none "hi" [[("Criterion", Cell.str "C"), ("Weight", Cell.num 1)]] =
      some ⟨25, 1, [⟨"C", 1, 0, 1/2, 1, 1/4, [], ["nan"], ""⟩]⟩ ∧
    0 ≤ (25 : Rat) ∧ (25 : Rat) ≤ 100 := by
  have ht : preprocess_text "hi" = "hi" := by decide
  have hwc : pyWordCount "hi" = 1 := by decide
  have hb1 : resolveBound [("Criterion", Cell.str "C"), ("Weight", Cell.num 1)]
      ["MinWords", "Min Words"] = some none := by decide
  have hb2 : resolveBound [("Criterion", Cell.str "C"), ("Weight", Cell.num 1)]
      ["MaxWords", "Max Words"] = some none := by decide
  have hname : _get_criterion_name [("Criterion", Cell.str "C"),
      ("Weight", Cell.num 1)] = "C" := by decide
  have hdesc : _get_first_existing [("Criterion", Cell.str "C"), ("Weight", Cell.num 1)]
      ["Description", "Criteria Description", "Detail", "Details"] = Cell.na := by decide
  have hkcell : _get_first_existing [("Criterion", Cell.str "C"), ("Weight", Cell.num 1)]
      ["Keywords", "Keyword", "Key words", "KeyWords"] = Cell.na := by decide
  have hwcell : _get_first_existing [("Criterion", Cell.str "C"), ("Weight", Cell.num 1)]
      ["Weight", "Weights", "MaxScore"] = Cell.num 1 := by decide
  have hwt : resolveWeight [("Criterion", Cell.str "C"), ("Weight", Cell.num 1)] = 1 := by
    simp [resolveWeight, hwcell]
  have hkw : compute_keyword_score "hi" Cell.na = ⟨0, [], ["nan"]⟩ := by
    have h1 : parseKeywords Cell.na = ["nan"] := by decide
    have h2 : kwPartition (strLower "hi") ["nan"] = ([], ["nan"]) := by decide
    simp [compute_keyword_score, h1, h2]
  have hsem : compute_semantic_score none "hi" Cell.na = 1/2 := rfl
  have hlp : compute_length_penalty 1 none none = ⟨1, ""⟩ := rfl
  have heval : score_transcript none "hi"
      [[("Criterion", Cell.str "C"), ("Weight", Cell.num 1)]] =
      some ⟨25, 1, [⟨"C", 1, 0, 1/2, 1, 1/4, [], ["nan"], ""⟩]⟩ := by
    simp only [score_transcript, ht, hwc, optMap, scoreRow, hb1, hb2, hname, hdesc,
      hkcell, hwt, hkw, hsem, hlp]
    have hf1 : ((5001 : Rat)/2).floor = 2500 := rat_floor_eq _ _ (by norm_num) (by norm_num)
    have hf2 : ((1 : Rat)/2).floor = 0 := rat_floor_eq _ _ (by norm_num) (by norm_num)
    have hf3 : ((1001 : Rat)/2).floor = 500 := rat_floor_eq _ _ (by norm_num) (by norm_num)
    have hf4 : ((2001 : Rat)/2).floor = 1000 := rat_floor_eq _ _ (by norm_num) (by norm_num)
    have hf5 : ((501 : Rat)/2).floor = 250 := rat_floor_eq _ _ (by norm_num) (by norm_num)
    norm_num [pyRoundTo, hf1, hf2, hf3, hf4, hf5]
  refine ⟨heval, ?_⟩
  have hw : ∀ row ∈ [[("Criterion", Cell.str "C"), ("Weight", Cell.num 1)]],
      0 ≤ resolveWeight row := by
    intro row hrow
    simp only [List.mem_singleton] at hrow
    subst hrow
    rw [hwt]
    norm_num
  obtain ⟨rows, _, _, _, h4, h5⟩ := overall_score_weighted_mean none "hi"
    [[("Criterion", Cell.str "C"), ("Weight", Cell.num 1)]]
    ⟨25, 1, [⟨"C", 1, 0, 1/2, 1, 1/4, [], ["nan"], ""⟩]⟩ heval
    (fun cap h => Option.noConfusion h) hw
  exact ⟨h4, h5⟩
